import Mathlib

/-!
Shallow embedding of the book recommendation engine of `core/engine.py` and
`core/models.py`, together with theorems about its documented properties.

Modelling conventions:
* Python `dict`s are insertion-ordered association lists (`dlookup`, `dinsert`);
  assigning an existing key keeps its position, a new key is appended.
* Python `set`s of ids are duplicate-free lists (`sadd` is `set.add`); the
  iteration order of a set is modelled as inserty order, which is one
  deterministic refinement of CPython's unspecified hash order.  No theorem
  below depends on a particular set iteration order.
* Python float scores are modelled as exact nonnegative fractions (`Frac`),
  compared by cross multiplication; every denominator produced is positive.
* An uncaught `KeyError` from an unguarded `self.books[...]` or
  `self.users[...]` access is modelled by `Option`: `none` is a crash.
-/

namespace RecEngine

/-- A book record, after `Book` in `core/models.py`. -/
structure Book where
  book_id : Nat
  title : String
  author : String
  genre : String
deriving DecidableEq

/-- A user record, after `User` in `core/models.py`; the Python `set`
`purchased_books` is modelled as a duplicate-free list. -/
structure User where
  user_id : Nat
  name : String
  purchased_books : List Nat
deriving DecidableEq

/-- Python `set.add`: a no-op when the element is already present. -/
def sadd (s : List Nat) (x : Nat) : List Nat :=
  if x ∈ s then s else s ++ [x]

/-- `User.add_book` from `core/models.py`. -/
def User.add_book (u : User) (book_id : Nat) : User :=
  { u with purchased_books := sadd u.purchased_books book_id }

/-- Python `dict` lookup (`m[k]` / `m.get(k)`). -/
def dlookup {α : Type} (m : List (Nat × α)) (k : Nat) : Option α :=
  match m with
  | [] => none
  | (k', v) :: rest => if k' = k then some v else dlookup rest k

/-- Python `dict` assignment `m[k] = v`: update in place when the key
exists, append when it is new. -/
def dinsert {α : Type} (m : List (Nat × α)) (k : Nat) (v : α) : List (Nat × α) :=
  match m with
  | [] => [(k, v)]
  | (k', v') :: rest => if k' = k then (k, v) :: rest else (k', v') :: dinsert rest k v

/-- An exact nonnegative ratio, kept unreduced: the float division results
of the source are modelled by the exact value `num / den`.  Every
denominator built below is positive. -/
structure Frac where
  num : Nat
  den : Nat
deriving DecidableEq

/-- Exact value comparison `p < q` of two fractions by cross
multiplication. -/
def Frac.lt (p q : Frac) : Bool :=
  decide (p.num * q.den < q.num * p.den)

/-- Exact fraction addition (used for the phase 1 score accumulation
`score += sim`). -/
def Frac.add (p q : Frac) : Frac :=
  ⟨p.num * q.den + q.num * p.den, p.den * q.den⟩

/-- The Python comparison `score > 0` for a fraction with positive
denominator. -/
def Frac.pos (p : Frac) : Bool :=
  decide (0 < p.num)

/-- The in-memory state of `BookStore` (`core/engine.py`): the catalog,
the users, the inverted index and the co-occurrence matrix. -/
structure BookStore where
  books : List (Nat × Book)
  users : List (Nat × User)
  book_subscribers : List (Nat × List Nat)
  co_occurrence_matrix : List (Nat × List (Nat × Nat))
deriving DecidableEq

/-- `BookStore._add_to_index`. -/
def add_to_index (st : BookStore) (user_id book_id : Nat) : BookStore :=
  let subs := (dlookup st.book_subscribers book_id).getD []
  { st with book_subscribers := dinsert st.book_subscribers book_id (sadd subs user_id) }

/-- One directed counter bump `m[a][b] = m[a].get(b, 0) + 1` of
`BookStore._update_associations`. -/
def bump (m : List (Nat × List (Nat × Nat))) (a b : Nat) : List (Nat × List (Nat × Nat)) :=
  let row := (dlookup m a).getD []
  dinsert m a (dinsert row b ((dlookup row b).getD 0 + 1))

/-- The nested pair loop of `BookStore._update_associations`: for each
ordered position pair `i < j`, bump `A -> B` and then `B -> A`. -/
def updAssoc : List (Nat × List (Nat × Nat)) → List Nat → List (Nat × List (Nat × Nat))
  | m, [] => m
  | m, a :: rest => updAssoc (rest.foldl (fun m' b => bump (bump m' a b) b a) m) rest

/-- `BookStore._update_associations`. -/
def update_associations (st : BookStore) (user_history_set : List Nat) : BookStore :=
  { st with co_occurrence_matrix := updAssoc st.co_occurrence_matrix user_history_set }

/-- One user entry of `users.json` as consumed by `load_data`. -/
structure UserInput where
  user_id : Nat
  name : String
  purchased_books : List Nat
deriving DecidableEq

/-- The inner loop of `load_data` section B: add each purchased id to the
user being built while indexing it under the user's id. -/
def load_user_go (it_uid : Nat) : User → BookStore → List Nat → User × BookStore
  | u, st, [] => (u, st)
  | u, st, book_id :: rest =>
    load_user_go it_uid (u.add_book book_id) (add_to_index st it_uid book_id) rest

/-- The per-user loop body of `load_data` section B: build the user while
indexing every purchased id, then store the user under its id. -/
def load_user (st : BookStore) (item : UserInput) : BookStore :=
  let p := load_user_go item.user_id ⟨item.user_id, item.name, []⟩ st item.purchased_books
  { p.2 with users := dinsert p.2.users item.user_id p.1 }

/-- `BookStore.load_data`, over in-memory book and user lists (reading the
JSON files is outside the engine proper): load the catalog, load the users
while building the inverted index, then train the co-occurrence model from
every user holding more than one book. -/
def load_data (book_list : List Book) (user_list : List UserInput) : BookStore :=
  let bks := book_list.foldl (fun m b => dinsert m b.book_id b) []
  let st2 := user_list.foldl load_user ⟨bks, [], [], []⟩
  let m := st2.users.foldl
    (fun m p => if p.2.purchased_books.length > 1 then updAssoc m p.2.purchased_books else m)
    []
  { st2 with co_occurrence_matrix := m }

/-- `BookStore.purchase_book`: the success flag together with the state
after the call. -/
def purchase_book (st : BookStore) (user_id book_id : Nat) : Bool × BookStore :=
  match dlookup st.users user_id, dlookup st.books book_id with
  | some user, some _ =>
    let user' := user.add_book book_id
    let st1 := { st with users := dinsert st.users user_id user' }
    let st2 := add_to_index st1 user_id book_id
    let st3 := update_associations st2 user'.purchased_books
    (true, st3)
  | _, _ => (false, st)

/-- A sequence of `purchase_book` calls; a failed call leaves the state
unchanged, so this covers any mix of successful and failed calls. -/
def apply_purchases : BookStore → List (Nat × Nat) → BookStore
  | st, [] => st
  | st, (u, b) :: rest => apply_purchases (purchase_book st u b).2 rest

/-- The set arithmetic of `calculate_jaccard_similarity`, with the float
division replaced by exact rational arithmetic: intersection size over
union size, and `0` when the union is empty. -/
def jaccard_sets (set_a set_b : Finset Nat) : ℚ :=
  let intersection := (set_a ∩ set_b).card
  let union := (set_a ∪ set_b).card
  if union = 0 then 0 else (intersection : ℚ) / (union : ℚ)

/-- `BookStore.calculate_jaccard_similarity`, as the executable fraction:
intersection size over union size of the two purchase sets, `0` when the
union is empty. -/
def calculate_jaccard_similarity (user1 user2 : User) : Frac :=
  let set_a := user1.purchased_books.toFinset
  let set_b := user2.purchased_books.toFinset
  let intersection := (set_a ∩ set_b).card
  let union := (set_a ∪ set_b).card
  if union = 0 then ⟨0, 1⟩ else ⟨intersection, union⟩

/-- The exact value of the executable Jaccard fraction is the rational
`jaccard_sets` of the two purchase sets. -/
theorem calculate_jaccard_value (user1 user2 : User) :
    ((calculate_jaccard_similarity user1 user2).num : ℚ) /
      ((calculate_jaccard_similarity user1 user2).den : ℚ) =
    jaccard_sets user1.purchased_books.toFinset user2.purchased_books.toFinset := by
  by_cases h : (user1.purchased_books.toFinset ∪ user2.purchased_books.toFinset).card = 0
  · simp [calculate_jaccard_similarity, jaccard_sets, h]
  · simp [calculate_jaccard_similarity, jaccard_sets, h]

/-- Stable descending insertion: `x` is placed after every element whose
key is at least as large, matching Python's stable
`sorted(..., reverse=True)` / `list.sort(..., reverse=True)`. -/
def insDesc {α : Type} (lt : α → α → Bool) (x : α) : List α → List α
  | [] => [x]
  | y :: ys => if lt y x then x :: y :: ys else y :: insDesc lt x ys

/-- Stable descending sort (insertion sort) with strict comparison `lt`. -/
def sortDesc {α : Type} (lt : α → α → Bool) (l : List α) : List α :=
  l.foldl (fun acc x => insDesc lt x acc) []

/-- Comparison of keyed score pairs by their fraction score. -/
def ltFracSnd {α : Type} (p q : α × Frac) : Bool :=
  Frac.lt p.2 q.2

/-- Comparison of keyed count pairs by their integer count. -/
def ltNatSnd {α : Type} (p q : α × Nat) : Bool :=
  decide (p.2 < q.2)

/-- `BookStore.get_similar_items`: item-based CF scores of all other
indexed items against the target's subscriber set, positive scores only,
sorted descending. -/
def get_similar_items (st : BookStore) (target_book_id : Nat) : List (Nat × Frac) :=
  match dlookup st.book_subscribers target_book_id with
  | none => []
  | some target_subs =>
    let scores := st.book_subscribers.foldl
      (fun acc p =>
        if p.1 = target_book_id then acc
        else
          let intersect := (target_subs.toFinset ∩ p.2.toFinset).card
          let uni := (target_subs.toFinset ∪ p.2.toFinset).card
          let score : Frac := if uni > 0 then ⟨intersect, uni⟩ else ⟨0, 1⟩
          if score.pos then acc ++ [(p.1, score)] else acc)
      []
    sortDesc ltFracSnd scores

/-- Which cascade phase of `recommend_books` produced a recommendation. -/
inductive RSource where
  | userBased
  | assocRule
  | itemCF
  | contentAuthor
  | trending
deriving DecidableEq

/-- A recommendation record: the emitted item id and the producing phase.
The reason strings of the source are phase-determined text; the catalog
lookups they perform are modelled, their text is not. -/
structure Rec where
  bid : Nat
  src : RSource
deriving DecidableEq

/-- The `recommended_ids` dedup set: in the source every addition to it is
paired with an append to `results`, so it equals the set of emitted ids. -/
def recIds (res : List Rec) : List Nat :=
  res.map Rec.bid

/-- Phase 1 neighbor scoring: `self.users[nid]` is an unguarded dict
access, so an unknown candidate id would be a `KeyError` (`none`). -/
def scoreNeighbors (st : BookStore) (target : User) : List Nat → Option (List (User × Frac))
  | [] => some []
  | nid :: rest =>
    match dlookup st.users nid with
    | none => none
    | some neighbor =>
      match scoreNeighbors st target rest with
      | none => none
      | some tail =>
        let score := calculate_jaccard_similarity target neighbor
        some (if score.pos then (neighbor, score) :: tail else tail)

/-- Phase 1 weighted ranking: for each top neighbor the source first
builds `reason_titles` with unguarded `self.books[bid]` lookups over the
shared ids, then adds the neighbor's similarity onto each unseen book. -/
def accumBookScores (st : BookStore) (target : User) :
    List (User × Frac) → List (Nat × Frac) → Option (List (Nat × Frac))
  | [], bs => some bs
  | (neighbor, sim) :: rest, bs =>
    let new_books := neighbor.purchased_books.filter (fun b => b ∉ target.purchased_books)
    let shared := target.purchased_books.filter (fun b => b ∈ neighbor.purchased_books)
    match shared.mapM (fun b => dlookup st.books b) with
    | none => none
    | some _ =>
      accumBookScores st target rest
        (new_books.foldl
          (fun bs' b => dinsert bs' b (((dlookup bs' b).getD ⟨0, 1⟩).add sim)) bs)

/-- Phase 1 emission: guarded by `if bid in self.books`, no break. -/
def emitP1 (st : BookStore) : List Rec → List Nat → List Rec
  | res, [] => res
  | res, bid :: rest =>
    if (dlookup st.books bid).isSome then emitP1 st (res ++ [⟨bid, RSource.userBased⟩]) rest
    else emitP1 st res rest

/-- Phase 1 of `recommend_books`: user-based collaborative filtering. -/
def phase1 (st : BookStore) (target_user_id : Nat) (target : User) : Option (List Rec) :=
  let candidate_ids :=
    (target.purchased_books.foldl
      (fun acc bid => ((dlookup st.book_subscribers bid).getD []).foldl sadd acc)
      []).filter (fun nid => nid ≠ target_user_id)
  match scoreNeighbors st target candidate_ids with
  | none => none
  | some scored =>
    let top := (sortDesc ltFracSnd scored).take 5
    match accumBookScores st target top [] with
    | none => none
    | some book_scores =>
      let sorted_ub_ids := (sortDesc ltFracSnd book_scores).map Prod.fst
      some (emitP1 st [] (sorted_ub_ids.take 5))

/-- Phase 2 accumulation over one co-occurrence row: every eligible
partner adds its count, and `self.books[my_bid]` is looked up (unguarded)
for the trigger title. -/
def accumRow (st : BookStore) (target : User) (rids : List Nat) (my_bid : Nat) :
    List (Nat × Nat) → List (Nat × Nat) → Option (List (Nat × Nat))
  | as, [] => some as
  | as, (partner, count) :: rest =>
    if partner ∉ target.purchased_books ∧ partner ∉ rids then
      match dlookup st.books my_bid with
      | none => none
      | some _ =>
        accumRow st target rids my_bid
          (dinsert as partner ((dlookup as partner).getD 0 + count)) rest
    else accumRow st target rids my_bid as rest

/-- Phase 2 accumulation over all owned items. -/
def accumAssoc (st : BookStore) (target : User) (rids : List Nat) :
    List (Nat × Nat) → List Nat → Option (List (Nat × Nat))
  | as, [] => some as
  | as, my_bid :: rest =>
    match dlookup st.co_occurrence_matrix my_bid with
    | none => accumAssoc st target rids as rest
    | some row =>
      match accumRow st target rids my_bid as row with
      | none => none
      | some as' => accumAssoc st target rids as' rest

/-- The capped emission loop shared by phases 2 and 3: Python breaks once
five results are accumulated, and `self.books[bid]` is unguarded. -/
def emitCapped (st : BookStore) (src : RSource) : List Rec → List Nat → Option (List Rec)
  | res, [] => some res
  | res, bid :: rest =>
    if res.length ≥ 5 then some res
    else
      match dlookup st.books bid with
      | none => none
      | some _ => emitCapped st src (res ++ [⟨bid, src⟩]) rest

/-- Phase 2 of `recommend_books`: association-rule mining, gated on the
running result count and a non-empty purchase history; at most the first
three sorted candidates are considered (`sorted_assoc[:3]`). -/
def phase2 (st : BookStore) (target : User) (res : List Rec) : Option (List Rec) :=
  if res.length < 5 ∧ target.purchased_books ≠ [] then
    match accumAssoc st target (recIds res) [] target.purchased_books with
    | none => none
    | some assoc_scores =>
      emitCapped st RSource.assocRule res
        (((sortDesc ltNatSnd assoc_scores).map Prod.fst).take 3)
  else some res

/-- Phase 3 accumulation over one owned item's top twins: an eligible twin
replaces a strictly smaller stored score, and `self.books[my_bid]` is
looked up (unguarded) for the trigger title on every replacement.  The
source first materialises a zero-score entry for a new twin, but every
twin score is positive, so the entry is overwritten in the same step. -/
def accumTwins (st : BookStore) (target : User) (rids : List Nat) (my_bid : Nat) :
    List (Nat × Frac) → List (Nat × Frac) → Option (List (Nat × Frac))
  | isc, [] => some isc
  | isc, (twin_id, score) :: rest =>
    if twin_id ∉ target.purchased_books ∧ twin_id ∉ rids then
      if Frac.lt ((dlookup isc twin_id).getD ⟨0, 1⟩) score then
        match dlookup st.books my_bid with
        | none => none
        | some _ => accumTwins st target rids my_bid (dinsert isc twin_id score) rest
      else accumTwins st target rids my_bid isc rest
    else accumTwins st target rids my_bid isc rest

/-- Phase 3 accumulation over all owned items (two top twins each). -/
def accumItems (st : BookStore) (target : User) (rids : List Nat) :
    List (Nat × Frac) → List Nat → Option (List (Nat × Frac))
  | isc, [] => some isc
  | isc, my_bid :: rest =>
    match accumTwins st target rids my_bid isc ((get_similar_items st my_bid).take 2) with
    | none => none
    | some isc' => accumItems st target rids isc' rest

/-- Phase 3 of `recommend_books`: item-based collaborative filtering, same
gate and emission cap structure as phase 2. -/
def phase3 (st : BookStore) (target : User) (res : List Rec) : Option (List Rec) :=
  if res.length < 5 ∧ target.purchased_books ≠ [] then
    match accumItems st target (recIds res) [] target.purchased_books with
    | none => none
    | some item_scores =>
      emitCapped st RSource.itemCF res
        (((sortDesc ltFracSnd item_scores).map Prod.fst).take 3)
  else some res

/-- Phase 4 emission: walk the catalog itself, break at five results, emit
unowned, unrecommended books by a liked author. -/
def emitP4 (target : User) (liked : List String) : List Rec → List (Nat × Book) → List Rec
  | res, [] => res
  | res, (_, book) :: rest =>
    if res.length ≥ 5 then res
    else
      if book.book_id ∉ target.purchased_books ∧ book.book_id ∉ recIds res ∧
          book.author ∈ liked then
        emitP4 target liked (res ++ [⟨book.book_id, RSource.contentAuthor⟩]) rest
      else emitP4 target liked res rest

/-- Phase 4 of `recommend_books`: content-based author fallback; the
author-set comprehension is guarded by `if bid in self.books`. -/
def phase4 (st : BookStore) (target : User) (res : List Rec) : List Rec :=
  if res.length < 5 ∧ target.purchased_books ≠ [] then
    let liked_authors := target.purchased_books.foldl
      (fun acc bid =>
        match dlookup st.books bid with
        | some b => if b.author ∈ acc then acc else acc ++ [b.author]
        | none => acc)
      []
    emitP4 target liked_authors res st.books
  else res

/-- The global popularity map of phase 5: ids of purchased books with
their global purchase counts, one contribution per owning user. -/
def popMap (st : BookStore) : List (Nat × Nat) :=
  st.users.foldl
    (fun pm p =>
      p.2.purchased_books.foldl
        (fun pm' pid => dinsert pm' pid ((dlookup pm' pid).getD 0 + 1)) pm)
    []

/-- Phase 5 emission over the already truncated top five: skip owned ids,
`self.books[bid]` is unguarded. -/
def emitP5 (st : BookStore) (target : User) : List Rec → List Nat → Option (List Rec)
  | res, [] => some res
  | res, bid :: rest =>
    if bid ∉ target.purchased_books then
      match dlookup st.books bid with
      | none => none
      | some _ => emitP5 st target (res ++ [⟨bid, RSource.trending⟩]) rest
    else emitP5 st target res rest

/-- Phase 5 of `recommend_books`: global-popularity cold-start fallback.
The source truncates the descending popularity ranking to five entries
before filtering out books the target already owns. -/
def phase5 (st : BookStore) (target : User) : Option (List Rec) :=
  emitP5 st target [] (((sortDesc ltNatSnd (popMap st)).map Prod.fst).take 5)

/-- `BookStore.recommend_books`: the five-phase cascade.  `none` models an
uncaught `KeyError` escaping from an unguarded dict access; an unknown
profile id yields `some []`. -/
def recommend_books (st : BookStore) (target_user_id : Nat) : Option (List Rec) :=
  match dlookup st.users target_user_id with
  | none => some []
  | some target =>
    match phase1 st target_user_id target with
    | none => none
    | some r1 =>
      match phase2 st target r1 with
      | none => none
      | some r2 =>
        match phase3 st target r2 with
        | none => none
        | some r3 =>
          let r4 := phase4 st target r3
          if r4 = [] then phase5 st target else some r4

/-! ### Association-list and set helper lemmas -/

theorem dlookup_dinsert_self {α : Type} (m : List (Nat × α)) (k : Nat) (v : α) :
    dlookup (dinsert m k v) k = some v := by
  induction m with
  | nil => simp [dinsert, dlookup]
  | cons p rest ih =>
    obtain ⟨k', v'⟩ := p
    by_cases h : k' = k
    · simp [dinsert, dlookup, h]
    · simp [dinsert, dlookup, h, ih]

theorem dlookup_dinsert_ne {α : Type} (m : List (Nat × α)) (k k' : Nat) (v : α)
    (h : k' ≠ k) : dlookup (dinsert m k v) k' = dlookup m k' := by
  have hne : ¬k = k' := fun hh => h hh.symm
  induction m with
  | nil => simp [dinsert, dlookup, hne]
  | cons p rest ih =>
    obtain ⟨ka, va⟩ := p
    by_cases hk : ka = k
    · simp [dinsert, dlookup, hk, hne]
    · simp [dinsert, dlookup, hk, ih]

theorem dinsert_eq_of_dlookup {α : Type} (m : List (Nat × α)) (k : Nat) (v : α)
    (h : dlookup m k = some v) : dinsert m k v = m := by
  induction m with
  | nil => simp [dlookup] at h
  | cons p rest ih =>
    obtain ⟨ka, va⟩ := p
    by_cases hk : ka = k
    · subst hk
      simp [dlookup] at h
      simp [dinsert, h]
    · simp [dlookup, hk] at h
      simp [dinsert, hk, ih h]

theorem mem_of_dinsert {α : Type} (m : List (Nat × α)) (k : Nat) (v : α)
    (kv : Nat × α) (h : kv ∈ dinsert m k v) : kv ∈ m ∨ kv = (k, v) := by
  induction m with
  | nil =>
    simp only [dinsert, List.mem_singleton] at h
    exact Or.inr h
  | cons p rest ih =>
    obtain ⟨ka, va⟩ := p
    by_cases hk : ka = k
    · simp only [dinsert, if_pos hk, List.mem_cons] at h
      rcases h with h | h
      · exact Or.inr h
      · exact Or.inl (List.mem_cons_of_mem _ h)
    · simp only [dinsert, if_neg hk, List.mem_cons] at h
      rcases h with h | h
      · exact Or.inl (by simp [h])
      · rcases ih h with h1 | h1
        · exact Or.inl (List.mem_cons_of_mem _ h1)
        · exact Or.inr h1

theorem mem_sadd (s : List Nat) (x y : Nat) : x ∈ sadd s y ↔ x ∈ s ∨ x = y := by
  by_cases h : y ∈ s
  · simp only [sadd, if_pos h]
    exact ⟨Or.inl, by rintro (hx | rfl) <;> assumption⟩
  · simp [sadd, if_neg h]

theorem sadd_eq_of_mem (s : List Nat) (y : Nat) (h : y ∈ s) : sadd s y = s := by
  simp [sadd, h]

/-! ### Helper observations about sorting and emission -/

theorem mem_insDesc {α : Type} (lt : α → α → Bool) (x : α) :
    ∀ (l : List α) (y : α), y ∈ insDesc lt x l → y = x ∨ y ∈ l := by
  intro l
  induction l with
  | nil =>
    intro y h
    simpa [insDesc] using h
  | cons z zs ih =>
    intro y h
    by_cases hz : lt z x
    · simp only [insDesc, if_pos hz, List.mem_cons] at h
      rcases h with h | h
      · exact Or.inl h
      · exact Or.inr (by simpa using h)
    · simp only [insDesc, if_neg hz, List.mem_cons] at h
      rcases h with h | h
      · exact Or.inr (by simp [h])
      · rcases ih y h with h1 | h1
        · exact Or.inl h1
        · exact Or.inr (List.mem_cons_of_mem _ h1)

theorem length_insDesc {α : Type} (lt : α → α → Bool) (x : α) (l : List α) :
    (insDesc lt x l).length = l.length + 1 := by
  induction l with
  | nil => simp [insDesc]
  | cons z zs ih =>
    by_cases hz : lt z x
    · simp [insDesc, hz]
    · simp [insDesc, hz, ih]

theorem mem_foldl_insDesc {α : Type} (lt : α → α → Bool) :
    ∀ (l acc : List α) (y : α),
      y ∈ l.foldl (fun acc x => insDesc lt x acc) acc → y ∈ acc ∨ y ∈ l := by
  intro l
  induction l with
  | nil =>
    intro acc y h
    exact Or.inl h
  | cons z zs ih =>
    intro acc y h
    simp only [List.foldl_cons] at h
    rcases ih (insDesc lt z acc) y h with h1 | h1
    · rcases mem_insDesc lt z acc y h1 with h2 | h2
      · exact Or.inr (by simp [h2])
      · exact Or.inl h2
    · exact Or.inr (List.mem_cons_of_mem _ h1)

theorem mem_sortDesc {α : Type} (lt : α → α → Bool) (l : List α) (y : α)
    (h : y ∈ sortDesc lt l) : y ∈ l := by
  rcases mem_foldl_insDesc lt l [] y h with h' | h'
  · simp at h'
  · exact h'

theorem length_foldl_insDesc {α : Type} (lt : α → α → Bool) :
    ∀ (l acc : List α),
      (l.foldl (fun acc x => insDesc lt x acc) acc).length = acc.length + l.length := by
  intro l
  induction l with
  | nil =>
    intro acc
    simp
  | cons z zs ih =>
    intro acc
    simp only [List.foldl_cons, List.length_cons]
    rw [ih (insDesc lt z acc), length_insDesc]
    omega

theorem length_sortDesc {α : Type} (lt : α → α → Bool) (l : List α) :
    (sortDesc lt l).length = l.length := by
  simpa using length_foldl_insDesc lt l []

end RecEngine

namespace RecEngine

/-! ### Concrete states used by the claim-level evaluations -/

/-- A catalog entry with blank text fields, for concrete test states. -/
def mkBook (i : Nat) : Book := ⟨i, "", "", ""⟩

/-- The number of stored profiles whose purchase set contains both ids. -/
def profilesOwningBoth (st : BookStore) (i j : Nat) : Nat :=
  (st.users.filter
    (fun p => decide (i ∈ p.2.purchased_books ∧ j ∈ p.2.purchased_books))).length

/-- Load with one user owning book 1, then purchase books 2 and 3: the
second purchase re-counts the pair (1, 2). -/
def stC1 : BookStore :=
  apply_purchases (load_data [mkBook 1, mkBook 2, mkBook 3] [⟨1, "A", [1]⟩]) [(1, 2), (1, 3)]

/-- A state loaded with an empty catalog but a user purchase referencing
stale item 7, plus a second user with no purchases. -/
def stC2 : BookStore := load_data [] [⟨1, "A", [7]⟩, ⟨2, "B", []⟩]

/-- Claim C1 is false on the code: after loading one user owning item 1
and then purchasing items 2 and 3, the co-occurrence entry (1, 2) is 2,
while exactly one profile owns both 1 and 2.  `purchase_book` re-adds
every pair of the full updated set without retracting earlier
contributions. -/
theorem claim_C1_code_bug :
    (dlookup ((dlookup stC1.co_occurrence_matrix 1).getD []) 2).getD 0 = 2 ∧
    profilesOwningBoth stC1 1 2 = 1 := by decide

/-- Claim C2 is false on the code: for the known profile 2 (empty
purchase set) against a state whose index/model reference stale item 7,
`recommend_books` hits the unguarded `self.books[bid]` of the popularity
phase and crashes (`none`) instead of skipping the stale id. -/
theorem claim_C2_code_bug : recommend_books stC2 2 = none := by decide

/-! ### C8: failed purchase leaves the state unchanged -/

/-- Claim C8: if the profile id is unknown or the item id is unknown,
`purchase_book` returns `false` and the entire engine state (profiles,
catalog, inverted index, co-occurrence matrix) is exactly as before. -/
theorem claim_C8 (st : BookStore) (user_id book_id : Nat)
    (h : dlookup st.users user_id = none ∨ dlookup st.books book_id = none) :
    purchase_book st user_id book_id = (false, st) := by
  unfold purchase_book
  rcases h with h | h
  · rw [h]
  · rw [h]
    cases dlookup st.users user_id <;> rfl

/-- Witness for C8 at a concrete input: the empty store knows no user. -/
theorem claim_C8_witness :
    purchase_book ⟨[], [], [], []⟩ 1 2 = (false, ⟨[], [], [], []⟩) :=
  claim_C8 ⟨[], [], [], []⟩ 1 2 (Or.inl rfl)

/-! ### C9: algebraic properties of the Jaccard similarity -/

/-- Claim C9: the Jaccard similarity with exact rational arithmetic is
symmetric, equals 1 on a non-empty set against itself, is 0 on two empty
sets (the guarded division-by-zero branch), and always lies in [0, 1]. -/
theorem claim_C9 (A B : Finset ℕ) :
    jaccard_sets A B = jaccard_sets B A ∧
    (A.Nonempty → jaccard_sets A A = 1) ∧
    jaccard_sets ∅ ∅ = 0 ∧
    0 ≤ jaccard_sets A B ∧ jaccard_sets A B ≤ 1 := by
  have hj : ∀ s t : Finset ℕ, jaccard_sets s t
      = if (s ∪ t).card = 0 then 0 else ((s ∩ t).card : ℚ) / ((s ∪ t).card : ℚ) :=
    fun s t => rfl
  refine ⟨?_, ?_, ?_, ?_, ?_⟩
  · rw [hj, hj, Finset.inter_comm, Finset.union_comm]
  · intro hA
    have hcard : A.card ≠ 0 := by
      simpa [Finset.card_eq_zero] using hA.ne_empty
    rw [hj]
    simp only [Finset.union_self, Finset.inter_self]
    rw [if_neg hcard]
    exact div_self (by exact_mod_cast hcard)
  · rw [hj]
    simp
  · rw [hj]
    split
    · exact le_refl 0
    · positivity
  · rw [hj]
    split
    · exact zero_le_one
    · rename_i h
      rw [div_le_one (by exact_mod_cast Nat.pos_of_ne_zero h)]
      exact_mod_cast Finset.card_le_card
        (Finset.inter_subset_left.trans Finset.subset_union_left)

/-- Witness for C9 at concrete sets, discharging the nonemptiness
hypothesis at `{1, 2}`. -/
theorem claim_C9_witness :
    jaccard_sets {1, 2} {2, 3} = jaccard_sets {2, 3} {1, 2} ∧
    jaccard_sets {1, 2} {1, 2} = 1 :=
  ⟨(claim_C9 {1, 2} {2, 3}).1, (claim_C9 {1, 2} {1, 2}).2.1 ⟨1, by decide⟩⟩

/-! ### C5: the association phase and the remaining quota -/

/-- The capped emission loop emits until the candidates run out or five
results stand: the final length is `min 5 (res.length + cands.length)`. -/
theorem emitCapped_length_eq (st : BookStore) (src : RSource) :
    ∀ (cands : List Nat) (res res' : List Rec), res.length ≤ 5 →
      emitCapped st src res cands = some res' →
      res'.length = min 5 (res.length + cands.length) := by
  intro cands
  induction cands with
  | nil =>
    intro res res' h5 h
    simp only [emitCapped, Option.some.injEq] at h
    subst h
    simp
    omega
  | cons bid rest ih =>
    intro res res' h5 h
    by_cases hge : res.length ≥ 5
    · simp only [emitCapped, if_pos hge, Option.some.injEq] at h
      subst h
      simp
      omega
    · simp only [emitCapped, if_neg hge] at h
      cases hb : dlookup st.books bid with
      | none =>
        rw [hb] at h
        simp at h
      | some b =>
        rw [hb] at h
        have happ : (res ++ [(⟨bid, src⟩ : Rec)]).length = res.length + 1 := by simp
        have hlen := ih (res ++ [(⟨bid, src⟩ : Rec)]) res' (by omega) h
        rw [happ] at hlen
        simp only [List.length_cons]
        omega

/-- Claim C5 as amended: when the association phase runs with `r` slots
still free and at least `r` eligible candidate partners exist, it emits
exactly `min r 3` items — the source considers only the first three
sorted candidates (`sorted_assoc[:3]`), so the quota is filled only when
at most three slots are free. -/
theorem claim_C5 (st : BookStore) (target : User) (res res' : List Rec)
    (assoc_scores : List (Nat × Nat))
    (hgate1 : res.length < 5) (hgate2 : target.purchased_books ≠ [])
    (hacc : accumAssoc st target (recIds res) [] target.purchased_books = some assoc_scores)
    (hmany : 5 - res.length ≤ assoc_scores.length)
    (h : phase2 st target res = some res') :
    res'.length = res.length + min (5 - res.length) 3 := by
  unfold phase2 at h
  rw [if_pos ⟨hgate1, hgate2⟩, hacc] at h
  have hlen := emitCapped_length_eq st RSource.assocRule _ res res' (le_of_lt hgate1) h
  have hc : (((sortDesc ltNatSnd assoc_scores).map Prod.fst).take 3).length
      = min 3 assoc_scores.length := by
    simp [List.length_take, length_sortDesc]
  rw [hc] at hlen
  omega

/-- A load state where the target owns item 1, five neighbors own
{1, 2} and one neighbor owns {1, 3, 4, 5, 6}: phase 1 emits only item 2,
leaving four free slots with four eligible co-occurrence partners. -/
def stC5 : BookStore :=
  load_data [mkBook 1, mkBook 2, mkBook 3, mkBook 4, mkBook 5, mkBook 6]
    [⟨10, "T", [1]⟩, ⟨11, "U", [1, 2]⟩, ⟨12, "U", [1, 2]⟩, ⟨13, "U", [1, 2]⟩,
     ⟨14, "U", [1, 2]⟩, ⟨15, "U", [1, 2]⟩, ⟨16, "V", [1, 3, 4, 5, 6]⟩]

/-- Claim C5 as stated is false on the code: at `stC5` the association
phase starts with one result (four slots free) and four eligible
candidate partners (items 3, 4, 5, 6), yet it emits only three items, so
it does not fill the remaining quota. -/
theorem claim_C5_counterexample :
    dlookup stC5.users 10 = some ⟨10, "T", [1]⟩ ∧
    phase1 stC5 10 ⟨10, "T", [1]⟩ = some [⟨2, RSource.userBased⟩] ∧
    accumAssoc stC5 ⟨10, "T", [1]⟩ (recIds [⟨2, RSource.userBased⟩]) [] [1]
      = some [(3, 1), (4, 1), (5, 1), (6, 1)] ∧
    phase2 stC5 ⟨10, "T", [1]⟩ [⟨2, RSource.userBased⟩]
      = some [⟨2, RSource.userBased⟩, ⟨3, RSource.assocRule⟩, ⟨4, RSource.assocRule⟩,
          ⟨5, RSource.assocRule⟩] := by decide

/-- Witness for the amended C5 at `stC5`: one slot used, four free, four
eligible candidates, and the phase emits `min 4 3 = 3` items. -/
theorem claim_C5_witness :
    ([⟨2, RSource.userBased⟩, ⟨3, RSource.assocRule⟩, ⟨4, RSource.assocRule⟩,
      ⟨5, RSource.assocRule⟩] : List Rec).length
      = ([⟨2, RSource.userBased⟩] : List Rec).length
        + min (5 - ([⟨2, RSource.userBased⟩] : List Rec).length) 3 :=
  claim_C5 stC5 ⟨10, "T", [1]⟩ [⟨2, RSource.userBased⟩]
    [⟨2, RSource.userBased⟩, ⟨3, RSource.assocRule⟩, ⟨4, RSource.assocRule⟩,
      ⟨5, RSource.assocRule⟩]
    [(3, 1), (4, 1), (5, 1), (6, 1)]
    (by decide) (by decide) (by decide) (by decide) (by decide)

/-! ### C6: the popularity fallback -/

/-- The popularity fallback as the spec words it (§4.5 phase 5): rank all
catalog items by global purchase count descending and emit the top 5
items not already owned by the target.  This definition follows the
spec's sentence — filtering owned items before truncating to five, over
the whole catalog — for comparison against `phase5`, which truncates the
ranking of purchased items to five entries first.  Ties are broken by
catalog order, a deterministic stable tie-break as the spec allows. -/
def spec_popularity_fallback (st : BookStore) (target : User) : List Nat :=
  ((((sortDesc ltNatSnd
        (st.books.map (fun p => (p.1, (dlookup (popMap st) p.1).getD 0)))).map
      Prod.fst).filter (fun bid => decide (bid ∉ target.purchased_books))).take 5)

/-- Phase 5 emission produces exactly the unowned ids of its candidate
list, in order, all tagged as trending. -/
theorem emitP5_spec (st : BookStore) (target : User) :
    ∀ (l : List Nat) (res res' : List Rec), emitP5 st target res l = some res' →
      res'.map Rec.bid
        = res.map Rec.bid ++ l.filter (fun bid => decide (bid ∉ target.purchased_books)) ∧
      ∀ r ∈ res', r ∈ res ∨ (r.src = RSource.trending ∧ r.bid ∉ target.purchased_books) := by
  intro l
  induction l with
  | nil =>
    intro res res' h
    simp only [emitP5, Option.some.injEq] at h
    subst h
    exact ⟨by simp, fun r hr => Or.inl hr⟩
  | cons bid rest ih =>
    intro res res' h
    by_cases hb : bid ∉ target.purchased_books
    · simp only [emitP5, if_pos hb] at h
      cases hl : dlookup st.books bid with
      | none =>
        rw [hl] at h
        simp at h
      | some b =>
        rw [hl] at h
        obtain ⟨h1, h2⟩ := ih (res ++ [⟨bid, RSource.trending⟩]) res' h
        constructor
        · rw [h1]
          simp [List.filter_cons, hb]
        · intro r hr
          rcases h2 r hr with h3 | h3
          · rcases List.mem_append.mp h3 with h4 | h4
            · exact Or.inl h4
            · right
              simp only [List.mem_singleton] at h4
              rw [h4]
              exact ⟨rfl, hb⟩
          · exact Or.inr h3
    · simp only [emitP5, if_neg hb] at h
      obtain ⟨h1, h2⟩ := ih res res' h
      refine ⟨?_, h2⟩
      rw [h1]
      simp only [List.filter_cons]
      rw [if_neg (by simpa using hb)]

/-- Claim C6 as amended: for a known profile for which the four prior
phases produced no results, `recommend_books` returns the popularity
fallback computed as: rank the items having at least one recorded
purchase by global purchase count descending, truncate to the first
five, and return those not owned by the target — each marked trending. -/
theorem claim_C6 (st : BookStore) (uid : Nat) (target : User) (r1 r2 r3 res : List Rec)
    (ht : dlookup st.users uid = some target)
    (h1 : phase1 st uid target = some r1)
    (h2 : phase2 st target r1 = some r2)
    (h3 : phase3 st target r2 = some r3)
    (h4 : phase4 st target r3 = [])
    (h : recommend_books st uid = some res) :
    res.map Rec.bid
      = (((sortDesc ltNatSnd (popMap st)).map Prod.fst).take 5).filter
          (fun bid => decide (bid ∉ target.purchased_books)) ∧
    ∀ r ∈ res, r.src = RSource.trending := by
  have h5 : phase5 st target = some res := by
    unfold recommend_books at h
    simp only [ht, h1, h2, h3, h4] at h
    simpa using h
  unfold phase5 at h5
  obtain ⟨hmap, hsrc⟩ := emitP5_spec st target _ [] res h5
  constructor
  · simpa using hmap
  · intro r hr
    rcases hsrc r hr with h' | h'
    · simp at h'
    · exact h'.1

/-- A load state with six books of distinct authors and popularity counts
2, 6, 5, 4, 3, 1 for items 1..6; the target owns item 1, which sits in
the global top five. -/
def stC6 : BookStore :=
  load_data
    [⟨1, "t1", "a1", "g"⟩, ⟨2, "t2", "a2", "g"⟩, ⟨3, "t3", "a3", "g"⟩,
     ⟨4, "t4", "a4", "g"⟩, ⟨5, "t5", "a5", "g"⟩, ⟨6, "t6", "a6", "g"⟩]
    [⟨1, "T", [1]⟩, ⟨2, "X", [1]⟩,
     ⟨11, "u", [2]⟩, ⟨12, "u", [2]⟩, ⟨13, "u", [2]⟩, ⟨14, "u", [2]⟩, ⟨15, "u", [2]⟩,
     ⟨16, "u", [2]⟩,
     ⟨21, "u", [3]⟩, ⟨22, "u", [3]⟩, ⟨23, "u", [3]⟩, ⟨24, "u", [3]⟩, ⟨25, "u", [3]⟩,
     ⟨31, "u", [4]⟩, ⟨32, "u", [4]⟩, ⟨33, "u", [4]⟩, ⟨34, "u", [4]⟩,
     ⟨41, "u", [5]⟩, ⟨42, "u", [5]⟩, ⟨43, "u", [5]⟩,
     ⟨51, "u", [6]⟩]

/-- Claim C6 as stated is false on the code: at `stC6` the prior phases
yield nothing for profile 1; the spec-worded fallback is [2, 3, 4, 5, 6]
(the top five unowned catalog items by purchase count), but the code
truncates the ranking to five before filtering out owned item 1 and
returns only [2, 3, 4, 5], dropping item 6. -/
theorem claim_C6_counterexample :
    dlookup stC6.users 1 = some ⟨1, "T", [1]⟩ ∧
    recommend_books stC6 1 = some [⟨2, RSource.trending⟩, ⟨3, RSource.trending⟩,
      ⟨4, RSource.trending⟩, ⟨5, RSource.trending⟩] ∧
    spec_popularity_fallback stC6 ⟨1, "T", [1]⟩ = [2, 3, 4, 5, 6] ∧
    ([⟨2, RSource.trending⟩, ⟨3, RSource.trending⟩, ⟨4, RSource.trending⟩,
      ⟨5, RSource.trending⟩] : List Rec).map Rec.bid ≠ [2, 3, 4, 5, 6] := by decide

/-! ### Per-phase structural lemmas for the cap and no-self-recommendation -/

theorem emitP1_length (st : BookStore) :
    ∀ (l : List Nat) (res : List Rec), (emitP1 st res l).length ≤ res.length + l.length := by
  intro l
  induction l with
  | nil =>
    intro res
    simp [emitP1]
  | cons bid rest ih =>
    intro res
    by_cases hb : (dlookup st.books bid).isSome
    · simp only [emitP1, if_pos hb]
      have h1 := ih (res ++ [(⟨bid, RSource.userBased⟩ : Rec)])
      have happ : (res ++ [(⟨bid, RSource.userBased⟩ : Rec)]).length = res.length + 1 := by
        simp
      rw [happ] at h1
      simp only [List.length_cons]
      omega
    · simp only [emitP1, if_neg hb]
      have h1 := ih res
      simp only [List.length_cons]
      omega

theorem mem_emitP1 (st : BookStore) :
    ∀ (l : List Nat) (res : List Rec) (r : Rec),
      r ∈ emitP1 st res l → r ∈ res ∨ r.bid ∈ l := by
  intro l
  induction l with
  | nil =>
    intro res r h
    exact Or.inl (by simpa [emitP1] using h)
  | cons bid rest ih =>
    intro res r h
    by_cases hb : (dlookup st.books bid).isSome
    · simp only [emitP1, if_pos hb] at h
      rcases ih _ r h with h1 | h1
      · rcases List.mem_append.mp h1 with h2 | h2
        · exact Or.inl h2
        · right
          simp only [List.mem_singleton] at h2
          rw [h2]
          exact List.mem_cons_self _ _
      · exact Or.inr (List.mem_cons_of_mem _ h1)
    · simp only [emitP1, if_neg hb] at h
      rcases ih _ r h with h1 | h1
      · exact Or.inl h1
      · exact Or.inr (List.mem_cons_of_mem _ h1)

theorem mem_emitCapped (st : BookStore) (src : RSource) :
    ∀ (cands : List Nat) (res res' : List Rec),
      emitCapped st src res cands = some res' → ∀ r ∈ res', r ∈ res ∨ r.bid ∈ cands := by
  intro cands
  induction cands with
  | nil =>
    intro res res' h r hr
    simp only [emitCapped, Option.some.injEq] at h
    subst h
    exact Or.inl hr
  | cons bid rest ih =>
    intro res res' h r hr
    by_cases hge : res.length ≥ 5
    · simp only [emitCapped, if_pos hge, Option.some.injEq] at h
      subst h
      exact Or.inl hr
    · simp only [emitCapped, if_neg hge] at h
      cases hb : dlookup st.books bid with
      | none =>
        rw [hb] at h
        simp at h
      | some b =>
        rw [hb] at h
        rcases ih _ res' h r hr with h1 | h1
        · rcases List.mem_append.mp h1 with h2 | h2
          · exact Or.inl h2
          · right
            simp only [List.mem_singleton] at h2
            rw [h2]
            exact List.mem_cons_self _ _
        · exact Or.inr (List.mem_cons_of_mem _ h1)

/-- Folding dict insertions over a key list only creates keys from that
list. -/
theorem mem_foldl_dinsert {α : Type} (f : List (Nat × α) → Nat → α) :
    ∀ (l : List Nat) (m : List (Nat × α)) (kv : Nat × α),
      kv ∈ l.foldl (fun m' b => dinsert m' b (f m' b)) m → kv ∈ m ∨ kv.1 ∈ l := by
  intro l
  induction l with
  | nil =>
    intro m kv h
    exact Or.inl h
  | cons b rest ih =>
    intro m kv h
    simp only [List.foldl_cons] at h
    rcases ih _ kv h with h1 | h1
    · rcases mem_of_dinsert _ _ _ _ h1 with h2 | h2
      · exact Or.inl h2
      · right
        rw [h2]
        exact List.mem_cons_self _ _
    · exact Or.inr (List.mem_cons_of_mem _ h1)

/-- Every key accumulated by the phase 1 weighted ranking comes from some
neighbor's unseen books, hence is not owned by the target. -/
theorem accumBookScores_keys (st : BookStore) (target : User) :
    ∀ (ns : List (User × Frac)) (bs bs' : List (Nat × Frac)),
      accumBookScores st target ns bs = some bs' →
      ∀ kv ∈ bs', kv ∈ bs ∨ kv.1 ∉ target.purchased_books := by
  intro ns
  induction ns with
  | nil =>
    intro bs bs' h kv hkv
    simp only [accumBookScores, Option.some.injEq] at h
    subst h
    exact Or.inl hkv
  | cons p rest ih =>
    intro bs bs' h kv hkv
    obtain ⟨neighbor, sim⟩ := p
    simp only [accumBookScores] at h
    split at h
    · exact absurd h (by simp)
    · rcases ih _ bs' h kv hkv with h1 | h1
      · rcases mem_foldl_dinsert _ _ bs kv h1 with h2 | h2
        · exact Or.inl h2
        · right
          have h3 := List.mem_filter.mp h2
          exact of_decide_eq_true h3.2
      · exact Or.inr h1

/-- Every key accumulated from one co-occurrence row satisfies the
eligibility filter: not owned and not already recommended. -/
theorem accumRow_keys (st : BookStore) (target : User) (rids : List Nat) (my_bid : Nat) :
    ∀ (row : List (Nat × Nat)) (as as' : List (Nat × Nat)),
      accumRow st target rids my_bid as row = some as' →
      ∀ kv ∈ as', kv ∈ as ∨ (kv.1 ∉ target.purchased_books ∧ kv.1 ∉ rids) := by
  intro row
  induction row with
  | nil =>
    intro as as' h kv hkv
    simp only [accumRow, Option.some.injEq] at h
    subst h
    exact Or.inl hkv
  | cons pc rest ih =>
    intro as as' h kv hkv
    obtain ⟨partner, count⟩ := pc
    by_cases helig : partner ∉ target.purchased_books ∧ partner ∉ rids
    · simp only [accumRow, if_pos helig] at h
      cases hb : dlookup st.books my_bid with
      | none =>
        rw [hb] at h
        simp at h
      | some b =>
        rw [hb] at h
        rcases ih _ as' h kv hkv with h1 | h1
        · rcases mem_of_dinsert _ _ _ _ h1 with h2 | h2
          · exact Or.inl h2
          · right
            rw [h2]
            exact helig
        · exact Or.inr h1
    · simp only [accumRow, if_neg helig] at h
      exact ih _ as' h kv hkv

/-- Accumulated association keys over all owned items satisfy the
eligibility filter. -/
theorem accumAssoc_keys (st : BookStore) (target : User) (rids : List Nat) :
    ∀ (owned : List Nat) (as as' : List (Nat × Nat)),
      accumAssoc st target rids as owned = some as' →
      ∀ kv ∈ as', kv ∈ as ∨ (kv.1 ∉ target.purchased_books ∧ kv.1 ∉ rids) := by
  intro owned
  induction owned with
  | nil =>
    intro as as' h kv hkv
    simp only [accumAssoc, Option.some.injEq] at h
    subst h
    exact Or.inl hkv
  | cons my_bid rest ih =>
    intro as as' h kv hkv
    simp only [accumAssoc] at h
    split at h
    · exact ih _ as' h kv hkv
    · rename_i orow row hm
      split at h
      · exact absurd h (by simp)
      · rename_i oas as2 hr
        rcases ih _ as' h kv hkv with h1 | h1
        · rcases accumRow_keys st target rids my_bid row as as2 hr kv h1 with h2 | h2
          · exact Or.inl h2
          · exact Or.inr h2
        · exact Or.inr h1

/-- Accumulated twin keys over one owned item satisfy the eligibility
filter. -/
theorem accumTwins_keys (st : BookStore) (target : User) (rids : List Nat) (my_bid : Nat) :
    ∀ (twins : List (Nat × Frac)) (isc isc' : List (Nat × Frac)),
      accumTwins st target rids my_bid isc twins = some isc' →
      ∀ kv ∈ isc', kv ∈ isc ∨ (kv.1 ∉ target.purchased_books ∧ kv.1 ∉ rids) := by
  intro twins
  induction twins with
  | nil =>
    intro isc isc' h kv hkv
    simp only [accumTwins, Option.some.injEq] at h
    subst h
    exact Or.inl hkv
  | cons ts rest ih =>
    intro isc isc' h kv hkv
    obtain ⟨twin_id, score⟩ := ts
    by_cases helig : twin_id ∉ target.purchased_books ∧ twin_id ∉ rids
    · simp only [accumTwins, if_pos helig] at h
      by_cases hgt : Frac.lt ((dlookup isc twin_id).getD ⟨0, 1⟩) score
      · rw [if_pos hgt] at h
        cases hb : dlookup st.books my_bid with
        | none =>
          rw [hb] at h
          simp at h
        | some b =>
          rw [hb] at h
          rcases ih _ isc' h kv hkv with h1 | h1
          · rcases mem_of_dinsert _ _ _ _ h1 with h2 | h2
            · exact Or.inl h2
            · right
              rw [h2]
              exact helig
          · exact Or.inr h1
      · rw [if_neg hgt] at h
        exact ih _ isc' h kv hkv
    · simp only [accumTwins, if_neg helig] at h
      exact ih _ isc' h kv hkv

/-- Accumulated item-CF keys over all owned items satisfy the eligibility
filter. -/
theorem accumItems_keys (st : BookStore) (target : User) (rids : List Nat) :
    ∀ (owned : List Nat) (isc isc' : List (Nat × Frac)),
      accumItems st target rids isc owned = some isc' →
      ∀ kv ∈ isc', kv ∈ isc ∨ (kv.1 ∉ target.purchased_books ∧ kv.1 ∉ rids) := by
  intro owned
  induction owned with
  | nil =>
    intro isc isc' h kv hkv
    simp only [accumItems, Option.some.injEq] at h
    subst h
    exact Or.inl hkv
  | cons my_bid rest ih =>
    intro isc isc' h kv hkv
    simp only [accumItems] at h
    split at h
    · exact absurd h (by simp)
    · rename_i oisc isc2 ht
      rcases ih _ isc' h kv hkv with h1 | h1
      · rcases accumTwins_keys st target rids my_bid _ isc isc2 ht kv h1 with h2 | h2
        · exact Or.inl h2
        · exact Or.inr h2
      · exact Or.inr h1

theorem emitP4_length (target : User) (liked : List String) :
    ∀ (l : List (Nat × Book)) (res : List Rec),
      res.length ≤ 5 → (emitP4 target liked res l).length ≤ 5 := by
  intro l
  induction l with
  | nil =>
    intro res h5
    simpa [emitP4] using h5
  | cons p rest ih =>
    intro res h5
    obtain ⟨k, book⟩ := p
    by_cases hge : res.length ≥ 5
    · simp only [emitP4, if_pos hge]
      exact h5
    · simp only [emitP4, if_neg hge]
      by_cases helig : book.book_id ∉ target.purchased_books ∧
          book.book_id ∉ recIds res ∧ book.author ∈ liked
      · rw [if_pos helig]
        exact ih _ (by simp only [List.length_append, List.length_singleton]; omega)
      · rw [if_neg helig]
        exact ih _ h5

theorem mem_emitP4 (target : User) (liked : List String) :
    ∀ (l : List (Nat × Book)) (res : List Rec) (r : Rec),
      r ∈ emitP4 target liked res l → r ∈ res ∨ r.bid ∉ target.purchased_books := by
  intro l
  induction l with
  | nil =>
    intro res r h
    exact Or.inl (by simpa [emitP4] using h)
  | cons p rest ih =>
    intro res r h
    obtain ⟨k, book⟩ := p
    by_cases hge : res.length ≥ 5
    · simp only [emitP4, if_pos hge] at h
      exact Or.inl h
    · simp only [emitP4, if_neg hge] at h
      by_cases helig : book.book_id ∉ target.purchased_books ∧
          book.book_id ∉ recIds res ∧ book.author ∈ liked
      · rw [if_pos helig] at h
        rcases ih _ r h with h1 | h1
        · rcases List.mem_append.mp h1 with h2 | h2
          · exact Or.inl h2
          · right
            simp only [List.mem_singleton] at h2
            rw [h2]
            exact helig.1
        · exact Or.inr h1
      · rw [if_neg helig] at h
        exact ih _ r h

/-! ### Phase-level consequences -/

theorem phase1_length (st : BookStore) (uid : Nat) (target : User) (r1 : List Rec)
    (h : phase1 st uid target = some r1) : r1.length ≤ 5 := by
  simp only [phase1] at h
  split at h
  · exact absurd h (by simp)
  · rename_i osc scored hs
    split at h
    · exact absurd h (by simp)
    · rename_i obs book_scores hbs
      injection h with h'
      subst h'
      have h1 := emitP1_length st (((sortDesc ltFracSnd book_scores).map Prod.fst).take 5) []
      have h2 : (((sortDesc ltFracSnd book_scores).map Prod.fst).take 5).length ≤ 5 := by
        rw [List.length_take]
        omega
      simp only [List.length_nil, Nat.zero_add] at h1
      exact le_trans h1 h2

theorem phase1_no_self (st : BookStore) (uid : Nat) (target : User) (r1 : List Rec)
    (h : phase1 st uid target = some r1) :
    ∀ r ∈ r1, r.bid ∉ target.purchased_books := by
  simp only [phase1] at h
  split at h
  · exact absurd h (by simp)
  · rename_i osc scored hs
    split at h
    · exact absurd h (by simp)
    · rename_i obs book_scores hbs
      injection h with h'
      subst h'
      intro r hr
      rcases mem_emitP1 st _ [] r hr with h1 | h1
      · simp at h1
      · have h2 : r.bid ∈ (sortDesc ltFracSnd book_scores).map Prod.fst :=
          List.take_subset _ _ h1
        obtain ⟨kv, hkv, hfst⟩ := List.mem_map.mp h2
        have hkv' := mem_sortDesc _ _ _ hkv
        rcases accumBookScores_keys st target _ [] book_scores hbs kv hkv' with h3 | h3
        · simp at h3
        · rw [← hfst]
          exact h3

theorem phase2_length (st : BookStore) (target : User) (res res' : List Rec)
    (h5 : res.length ≤ 5) (h : phase2 st target res = some res') : res'.length ≤ 5 := by
  unfold phase2 at h
  split at h
  · split at h
    · exact absurd h (by simp)
    · have := emitCapped_length_eq st RSource.assocRule _ res res' h5 h
      omega
  · injection h with h'
    subst h'
    exact h5

theorem phase2_no_self (st : BookStore) (target : User) (res res' : List Rec)
    (h : phase2 st target res = some res') :
    ∀ r ∈ res', r ∈ res ∨ r.bid ∉ target.purchased_books := by
  unfold phase2 at h
  split at h
  · split at h
    · exact absurd h (by simp)
    · rename_i as hacc
      intro r hr
      rcases mem_emitCapped st _ _ res res' h r hr with h1 | h1
      · exact Or.inl h1
      · have h2 : r.bid ∈ (sortDesc ltNatSnd as).map Prod.fst := List.take_subset _ _ h1
        obtain ⟨kv, hkv, hfst⟩ := List.mem_map.mp h2
        have hkv' := mem_sortDesc _ _ _ hkv
        rcases accumAssoc_keys st target (recIds res) _ [] as hacc kv hkv' with h3 | h3
        · simp at h3
        · right
          rw [← hfst]
          exact h3.1
  · injection h with h'
    subst h'
    intro r hr
    exact Or.inl hr

theorem phase3_length (st : BookStore) (target : User) (res res' : List Rec)
    (h5 : res.length ≤ 5) (h : phase3 st target res = some res') : res'.length ≤ 5 := by
  unfold phase3 at h
  split at h
  · split at h
    · exact absurd h (by simp)
    · have := emitCapped_length_eq st RSource.itemCF _ res res' h5 h
      omega
  · injection h with h'
    subst h'
    exact h5

theorem phase3_no_self (st : BookStore) (target : User) (res res' : List Rec)
    (h : phase3 st target res = some res') :
    ∀ r ∈ res', r ∈ res ∨ r.bid ∉ target.purchased_books := by
  unfold phase3 at h
  split at h
  · split at h
    · exact absurd h (by simp)
    · rename_i isc hacc
      intro r hr
      rcases mem_emitCapped st _ _ res res' h r hr with h1 | h1
      · exact Or.inl h1
      · have h2 : r.bid ∈ (sortDesc ltFracSnd isc).map Prod.fst := List.take_subset _ _ h1
        obtain ⟨kv, hkv, hfst⟩ := List.mem_map.mp h2
        have hkv' := mem_sortDesc _ _ _ hkv
        rcases accumItems_keys st target (recIds res) _ [] isc hacc kv hkv' with h3 | h3
        · simp at h3
        · right
          rw [← hfst]
          exact h3.1
  · injection h with h'
    subst h'
    intro r hr
    exact Or.inl hr

theorem phase4_length (st : BookStore) (target : User) (res : List Rec)
    (h5 : res.length ≤ 5) : (phase4 st target res).length ≤ 5 := by
  unfold phase4
  split
  · exact emitP4_length target _ st.books res h5
  · exact h5

theorem phase4_no_self (st : BookStore) (target : User) (res : List Rec) :
    ∀ r ∈ phase4 st target res, r ∈ res ∨ r.bid ∉ target.purchased_books := by
  intro r hr
  unfold phase4 at hr
  split at hr
  · exact mem_emitP4 target _ st.books res r hr
  · exact Or.inl hr

theorem phase5_length (st : BookStore) (target : User) (res' : List Rec)
    (h : phase5 st target = some res') : res'.length ≤ 5 := by
  unfold phase5 at h
  obtain ⟨hmap, -⟩ := emitP5_spec st target _ [] res' h
  have hlen : res'.length = (res'.map Rec.bid).length := by simp
  rw [hlen, hmap]
  simp only [List.map_nil, List.nil_append]
  refine le_trans (List.length_filter_le _ _) ?_
  rw [List.length_take]
  omega

/-! ### C3: the recommendation cap and the unknown-profile contract -/

/-- Claim C3: whatever list `recommend_books` returns has length at most
five, and for an unknown profile id it returns the empty list. -/
theorem claim_C3 (st : BookStore) (uid : Nat) :
    (∀ res, recommend_books st uid = some res → res.length ≤ 5) ∧
    (dlookup st.users uid = none → recommend_books st uid = some []) := by
  constructor
  · intro res h
    unfold recommend_books at h
    cases hu : dlookup st.users uid with
    | none =>
      simp only [hu, Option.some.injEq] at h
      subst h
      simp
    | some target =>
      simp only [hu] at h
      split at h
      · exact absurd h (by simp)
      · rename_i r1 h1
        split at h
        · exact absurd h (by simp)
        · rename_i r2 h2
          split at h
          · exact absurd h (by simp)
          · rename_i r3 h3
            split at h
            · exact phase5_length st target res h
            · injection h with h'
              subst h'
              exact phase4_length st target r3
                (phase3_length st target r2 r3
                  (phase2_length st target r1 r2
                    (phase1_length st uid target r1 h1) h2) h3)
  · intro hnone
    unfold recommend_books
    simp only [hnone]

/-- Witness for C3 at a concrete state: profile 2 is unknown, so the
recommendation list is empty. -/
theorem claim_C3_witness :
    recommend_books (load_data [mkBook 1] [⟨1, "A", []⟩]) 2 = some [] :=
  (claim_C3 (load_data [mkBook 1] [⟨1, "A", []⟩]) 2).2 (by decide)

/-! ### C7: no self-recommendation -/

/-- Claim C7: no item id returned by `recommend_books` for a known
profile is already in that profile's purchase set, across all five
cascade phases. -/
theorem claim_C7 (st : BookStore) (uid : Nat) (target : User) (res : List Rec)
    (ht : dlookup st.users uid = some target)
    (h : recommend_books st uid = some res) :
    ∀ r ∈ res, r.bid ∉ target.purchased_books := by
  unfold recommend_books at h
  simp only [ht] at h
  split at h
  · exact absurd h (by simp)
  · rename_i r1 h1
    split at h
    · exact absurd h (by simp)
    · rename_i r2 h2
      split at h
      · exact absurd h (by simp)
      · rename_i r3 h3
        split at h
        · intro r hr
          unfold phase5 at h
          obtain ⟨-, hsrc⟩ := emitP5_spec st target _ [] res h
          rcases hsrc r hr with h' | h'
          · simp at h'
          · exact h'.2
        · injection h with h'
          subst h'
          intro r hr
          rcases phase4_no_self st target r3 r hr with h1' | h1'
          · rcases phase3_no_self st target r2 r3 h3 r h1' with h2' | h2'
            · rcases phase2_no_self st target r1 r2 h2 r h2' with h3' | h3'
              · exact phase1_no_self st uid target r1 h1 r h3'
              · exact h3'
            · exact h2'
          · exact h1'

/-- Witness for C7 at a concrete state: the phase 4 result for profile 1
recommends item 2, which profile 1 does not own. -/
theorem claim_C7_witness :
    (Rec.mk 2 RSource.contentAuthor).bid ∉ (User.mk 1 "A" [1]).purchased_books :=
  claim_C7 (load_data [mkBook 1, mkBook 2] [⟨1, "A", [1]⟩, ⟨2, "B", [1]⟩]) 1
    ⟨1, "A", [1]⟩ [⟨2, RSource.contentAuthor⟩] (by decide) (by decide)
    (Rec.mk 2 RSource.contentAuthor) (by decide)

/-- Witness for the amended C6 at `stC6`: the four prior phases produce
no results and the returned ids are the unowned entries of the truncated
popularity top five. -/
theorem claim_C6_witness :
    ([⟨2, RSource.trending⟩, ⟨3, RSource.trending⟩, ⟨4, RSource.trending⟩,
      ⟨5, RSource.trending⟩] : List Rec).map Rec.bid
      = (((sortDesc ltNatSnd (popMap stC6)).map Prod.fst).take 5).filter
          (fun bid => decide (bid ∉ (User.mk 1 "T" [1]).purchased_books)) :=
  (claim_C6 stC6 1 ⟨1, "T", [1]⟩ [] [] []
    [⟨2, RSource.trending⟩, ⟨3, RSource.trending⟩, ⟨4, RSource.trending⟩,
      ⟨5, RSource.trending⟩]
    (by decide) (by decide) (by decide) (by decide) (by decide) (by decide)).1

/-! ### C4 and C10: the inverted-index invariant over reachable states -/

/-- The inverted-index consistency invariant: a known profile owns an
item iff the profile id is in the item's subscriber set, where a missing
index entry denotes the empty subscriber set. -/
def IndexInv (st : BookStore) : Prop :=
  ∀ uid u, dlookup st.users uid = some u →
    ∀ bid, bid ∈ u.purchased_books ↔ uid ∈ (dlookup st.book_subscribers bid).getD []

theorem IndexInv_of_eq (st st' : BookStore) (hu : st.users = st'.users)
    (hs : st.book_subscribers = st'.book_subscribers) (h : IndexInv st) : IndexInv st' := by
  intro uid u hu' bid
  rw [← hu] at hu'
  rw [← hs]
  exact h uid u hu' bid

theorem mem_add_book (u : User) (x b : Nat) :
    x ∈ (u.add_book b).purchased_books ↔ x ∈ u.purchased_books ∨ x = b :=
  mem_sadd u.purchased_books x b

theorem add_to_index_subs (st : BookStore) (uid book_id : Nat) :
    (add_to_index st uid book_id).book_subscribers
      = dinsert st.book_subscribers book_id
          (sadd ((dlookup st.book_subscribers book_id).getD []) uid) := rfl

/-- Membership in a subscriber set after `_add_to_index`: unchanged for
other items, the indexed user id added for the indexed item. -/
theorem mem_subs_add_to_index (st : BookStore) (uid book_id x bid : Nat) :
    x ∈ (dlookup (add_to_index st uid book_id).book_subscribers bid).getD []
      ↔ x ∈ (dlookup st.book_subscribers bid).getD [] ∨ (bid = book_id ∧ x = uid) := by
  rw [add_to_index_subs]
  by_cases hb : bid = book_id
  · subst hb
    rw [dlookup_dinsert_self, Option.getD_some, mem_sadd]
    constructor
    · rintro (h | h)
      · exact Or.inl h
      · exact Or.inr ⟨rfl, h⟩
    · rintro (h | ⟨-, h⟩)
      · exact Or.inl h
      · exact Or.inr h
  · rw [dlookup_dinsert_ne _ _ _ _ hb]
    constructor
    · exact Or.inl
    · rintro (h | ⟨hb', -⟩)
      · exact h
      · exact absurd hb' hb

/-- The indexing loop of one user's load touches neither the user map nor
the catalog nor the matrix, and other users' subscriber memberships are
unchanged. -/
theorem load_user_go_frame (it_uid : Nat) :
    ∀ (bids : List Nat) (u0 : User) (st0 : BookStore),
      (load_user_go it_uid u0 st0 bids).2.users = st0.users ∧
      (load_user_go it_uid u0 st0 bids).2.books = st0.books ∧
      (load_user_go it_uid u0 st0 bids).2.co_occurrence_matrix = st0.co_occurrence_matrix ∧
      (∀ x bid, x ≠ it_uid →
        (x ∈ (dlookup (load_user_go it_uid u0 st0 bids).2.book_subscribers bid).getD []
          ↔ x ∈ (dlookup st0.book_subscribers bid).getD [])) := by
  intro bids
  induction bids with
  | nil =>
    intro u0 st0
    exact ⟨rfl, rfl, rfl, fun x bid _ => Iff.rfl⟩
  | cons b rest ih =>
    intro u0 st0
    simp only [load_user_go]
    obtain ⟨hu, hb, hm, hoth⟩ := ih (u0.add_book b) (add_to_index st0 it_uid b)
    refine ⟨by rw [hu]; rfl, by rw [hb]; rfl, by rw [hm]; rfl, ?_⟩
    intro x bid hx
    rw [hoth x bid hx, mem_subs_add_to_index]
    constructor
    · rintro (h | ⟨-, hxx⟩)
      · exact h
      · exact absurd hxx hx
    · exact Or.inl

/-- The indexing loop of one user's load keeps the loaded user's own
subscriber memberships in step with the purchase set being built. -/
theorem load_user_go_self (it_uid : Nat) :
    ∀ (bids : List Nat) (u0 : User) (st0 : BookStore),
      (∀ bid, it_uid ∈ (dlookup st0.book_subscribers bid).getD [] ↔ bid ∈ u0.purchased_books) →
      ∀ bid, it_uid ∈ (dlookup (load_user_go it_uid u0 st0 bids).2.book_subscribers bid).getD []
        ↔ bid ∈ (load_user_go it_uid u0 st0 bids).1.purchased_books := by
  intro bids
  induction bids with
  | nil =>
    intro u0 st0 h0 bid
    exact h0 bid
  | cons b rest ih =>
    intro u0 st0 h0
    simp only [load_user_go]
    apply ih
    intro bid
    rw [mem_subs_add_to_index, mem_add_book]
    constructor
    · rintro (h | ⟨h, -⟩)
      · exact Or.inl ((h0 bid).mp h)
      · exact Or.inr h
    · rintro (h | h)
      · exact Or.inl ((h0 bid).mpr h)
      · exact Or.inr ⟨h, rfl⟩

theorem load_user_users (st : BookStore) (it : UserInput) :
    (load_user st it).users
      = dinsert (load_user_go it.user_id ⟨it.user_id, it.name, []⟩ st it.purchased_books).2.users
          it.user_id
          (load_user_go it.user_id ⟨it.user_id, it.name, []⟩ st it.purchased_books).1 := rfl

theorem load_user_subs (st : BookStore) (it : UserInput) :
    (load_user st it).book_subscribers
      = (load_user_go it.user_id ⟨it.user_id, it.name, []⟩ st
          it.purchased_books).2.book_subscribers :=
  rfl

/-- Loading one fresh user (no stale subscriber entries for its id)
preserves the inverted-index invariant. -/
theorem load_user_inv (st : BookStore) (it : UserInput)
    (hinv : IndexInv st)
    (hfresh_s : ∀ bid, it.user_id ∉ (dlookup st.book_subscribers bid).getD []) :
    IndexInv (load_user st it) := by
  obtain ⟨hu, -, -, hoth⟩ :=
    load_user_go_frame it.user_id it.purchased_books ⟨it.user_id, it.name, []⟩ st
  have hself := load_user_go_self it.user_id it.purchased_books ⟨it.user_id, it.name, []⟩ st
    (fun bid => ⟨fun hx => absurd hx (hfresh_s bid), fun hx => absurd hx (List.not_mem_nil _)⟩)
  intro uid' u'' hu'' bid
  rw [load_user_users] at hu''
  rw [load_user_subs]
  by_cases huid : uid' = it.user_id
  · subst huid
    rw [dlookup_dinsert_self] at hu''
    injection hu'' with h''
    subst h''
    exact (hself bid).symm
  · rw [dlookup_dinsert_ne _ _ _ _ huid, hu] at hu''
    rw [hoth uid' bid huid]
    exact hinv uid' u'' hu'' bid

/-- Loading a list of users with pairwise distinct, fresh ids preserves
the inverted-index invariant. -/
theorem foldl_load_user_inv :
    ∀ (ul : List UserInput) (st : BookStore),
      IndexInv st →
      (∀ it ∈ ul, ∀ bid, it.user_id ∉ (dlookup st.book_subscribers bid).getD []) →
      (ul.map UserInput.user_id).Nodup →
      IndexInv (ul.foldl load_user st) := by
  intro ul
  induction ul with
  | nil =>
    intro st hinv _ _
    exact hinv
  | cons it rest ih =>
    intro st hinv hfs hnd
    have hnd' : (∀ x ∈ rest, ¬x.user_id = it.user_id) ∧
        (rest.map UserInput.user_id).Nodup := by simpa using hnd
    simp only [List.foldl_cons]
    apply ih
    · exact load_user_inv st it hinv (hfs it (List.mem_cons_self _ _))
    · intro jt hjt bid
      have hne : jt.user_id ≠ it.user_id := hnd'.1 jt hjt
      rw [load_user_subs,
        (load_user_go_frame it.user_id it.purchased_books ⟨it.user_id, it.name, []⟩ st).2.2.2
          jt.user_id bid hne]
      exact hfs jt (List.mem_cons_of_mem _ hjt) bid
    · exact hnd'.2

theorem load_data_eq (book_list : List Book) (user_list : List UserInput) :
    (load_data book_list user_list).users
        = (user_list.foldl load_user
            ⟨book_list.foldl (fun m b => dinsert m b.book_id b) [], [], [], []⟩).users ∧
    (load_data book_list user_list).book_subscribers
        = (user_list.foldl load_user
            ⟨book_list.foldl (fun m b => dinsert m b.book_id b) [], [], [], []⟩).book_subscribers :=
  ⟨rfl, rfl⟩

/-- The initial load establishes the inverted-index invariant, provided
the loaded profile ids are pairwise distinct. -/
theorem load_data_inv (book_list : List Book) (user_list : List UserInput)
    (hnd : (user_list.map UserInput.user_id).Nodup) :
    IndexInv (load_data book_list user_list) := by
  have hbase : IndexInv ⟨book_list.foldl (fun m b => dinsert m b.book_id b) [], [], [], []⟩ := by
    intro uid u hu bid
    simp [dlookup] at hu
  have hres := foldl_load_user_inv user_list _ hbase
    (fun it _ bid => by simp [dlookup]) hnd
  exact IndexInv_of_eq _ _ (load_data_eq book_list user_list).1.symm
    (load_data_eq book_list user_list).2.symm hres

/-- On a known user and known book, `purchase_book` succeeds and its
state update is: store the user with the added book, add the user to the
book's subscriber set, leave the catalog alone. -/
theorem purchase_book_some (st : BookStore) (uid bid : Nat) (u : User)
    (hu : dlookup st.users uid = some u) (hb : (dlookup st.books bid).isSome) :
    (purchase_book st uid bid).1 = true ∧
    (purchase_book st uid bid).2.users = dinsert st.users uid (u.add_book bid) ∧
    (purchase_book st uid bid).2.book_subscribers
      = dinsert st.book_subscribers bid
          (sadd ((dlookup st.book_subscribers bid).getD []) uid) ∧
    (purchase_book st uid bid).2.books = st.books := by
  unfold purchase_book
  rw [hu]
  cases hbv : dlookup st.books bid with
  | none =>
    rw [hbv] at hb
    simp at hb
  | some b =>
    exact ⟨rfl, rfl, rfl, rfl⟩

/-- A `purchase_book` call preserves the inverted-index invariant. -/
theorem purchase_book_inv (st : BookStore) (uid bid : Nat) (hinv : IndexInv st) :
    IndexInv (purchase_book st uid bid).2 := by
  cases hu : dlookup st.users uid with
  | none =>
    have hswap : purchase_book st uid bid = (false, st) := by
      unfold purchase_book
      rw [hu]
    rw [hswap]
    exact hinv
  | some u =>
    cases hb : dlookup st.books bid with
    | none =>
      have hswap : purchase_book st uid bid = (false, st) := by
        unfold purchase_book
        rw [hb]
        cases dlookup st.users uid <;> rfl
      rw [hswap]
      exact hinv
    | some b =>
      obtain ⟨-, husers, hsubs, -⟩ := purchase_book_some st uid bid u hu (by rw [hb]; rfl)
      have hmem : ∀ x b', x ∈ (dlookup (purchase_book st uid bid).2.book_subscribers b').getD []
          ↔ x ∈ (dlookup st.book_subscribers b').getD [] ∨ (b' = bid ∧ x = uid) := by
        intro x b'
        rw [hsubs]
        by_cases hbb : b' = bid
        · subst hbb
          rw [dlookup_dinsert_self, Option.getD_some, mem_sadd]
          constructor
          · rintro (h | h)
            · exact Or.inl h
            · exact Or.inr ⟨rfl, h⟩
          · rintro (h | ⟨-, h⟩)
            · exact Or.inl h
            · exact Or.inr h
        · rw [dlookup_dinsert_ne _ _ _ _ hbb]
          constructor
          · exact Or.inl
          · rintro (h | ⟨hb', -⟩)
            · exact h
            · exact absurd hb' hbb
      intro uid' u'' hu'' bid'
      rw [husers] at hu''
      rw [hmem]
      by_cases huid : uid' = uid
      · subst huid
        rw [dlookup_dinsert_self] at hu''
        injection hu'' with hu3
        subst hu3
        rw [mem_add_book, hinv uid' u hu bid']
        constructor
        · rintro (h | h)
          · exact Or.inl h
          · exact Or.inr ⟨h, rfl⟩
        · rintro (h | ⟨h, -⟩)
          · exact Or.inl h
          · exact Or.inr h
      · rw [dlookup_dinsert_ne _ _ _ _ huid] at hu''
        rw [hinv uid' u'' hu'' bid']
        constructor
        · exact Or.inl
        · rintro (h | ⟨-, hx⟩)
          · exact h
          · exact absurd hx huid

/-- Every state reached by a load with distinct profile ids followed by
any purchase sequence satisfies the inverted-index invariant. -/
theorem reachable_inv (book_list : List Book) (user_list : List UserInput)
    (seq : List (Nat × Nat)) (hnd : (user_list.map UserInput.user_id).Nodup) :
    IndexInv (apply_purchases (load_data book_list user_list) seq) := by
  suffices hgen : ∀ (s : List (Nat × Nat)) (st : BookStore),
      IndexInv st → IndexInv (apply_purchases st s) from
    hgen seq _ (load_data_inv book_list user_list hnd)
  intro s
  induction s with
  | nil =>
    intro st h
    exact h
  | cons p rest ih =>
    intro st h
    obtain ⟨u1, b1⟩ := p
    exact ih _ (purchase_book_inv st u1 b1 h)

/-- Claim C4: after the initial load (with pairwise distinct profile ids
in the load input) and any sequence of `purchase_book` calls, a known
profile owns an item iff the profile id is in that item's subscriber
set, a missing index entry denoting the empty set. -/
theorem claim_C4 (book_list : List Book) (user_list : List UserInput)
    (seq : List (Nat × Nat)) (hnd : (user_list.map UserInput.user_id).Nodup) :
    IndexInv (apply_purchases (load_data book_list user_list) seq) :=
  reachable_inv book_list user_list seq hnd

/-- Witness for C4 at a concrete reachable state: after loading user 1
with item 1 and purchasing item 2, ownership of item 2 and membership in
item 2's subscriber set agree. -/
theorem claim_C4_witness :
    2 ∈ (User.mk 1 "A" [1, 2]).purchased_books ↔
      1 ∈ (dlookup (apply_purchases (load_data [mkBook 1, mkBook 2] [⟨1, "A", [1]⟩])
            [(1, 2)]).book_subscribers 2).getD [] :=
  claim_C4 [mkBook 1, mkBook 2] [⟨1, "A", [1]⟩] [(1, 2)] (by decide)
    1 ⟨1, "A", [1, 2]⟩ (by decide) 2

/-- A repeat purchase of an already-owned item in a state satisfying the
index invariant succeeds and leaves the user map and the inverted index
structurally unchanged. -/
theorem repeat_purchase_noop (st : BookStore) (uid bid : Nat) (u : User)
    (hinv : IndexInv st)
    (hu : dlookup st.users uid = some u)
    (hb : (dlookup st.books bid).isSome)
    (hmem : bid ∈ u.purchased_books) :
    (purchase_book st uid bid).1 = true ∧
    (purchase_book st uid bid).2.users = st.users ∧
    (purchase_book st uid bid).2.book_subscribers = st.book_subscribers := by
  obtain ⟨ht, husers, hsubs, -⟩ := purchase_book_some st uid bid u hu hb
  refine ⟨ht, ?_, ?_⟩
  · rw [husers]
    have hid : u.add_book bid = u := by
      unfold User.add_book
      rw [sadd_eq_of_mem _ _ hmem]
    rw [hid]
    exact dinsert_eq_of_dlookup _ _ _ hu
  · rw [hsubs]
    have hin : uid ∈ (dlookup st.book_subscribers bid).getD [] := (hinv uid u hu bid).mp hmem
    cases hsv : dlookup st.book_subscribers bid with
    | none =>
      rw [hsv] at hin
      simp at hin
    | some subs =>
      rw [hsv] at hin
      simp only [Option.getD_some] at hin
      rw [Option.getD_some, sadd_eq_of_mem _ _ hin]
      exact dinsert_eq_of_dlookup _ _ _ hsv

/-- Claim C10: in a reachable state, `purchase_book` on a known profile
and a known, already-owned item returns `true` (the repeat purchase is
accepted) and leaves every profile's purchase set and the inverted index
unchanged; only the co-occurrence matrix may change. -/
theorem claim_C10 (book_list : List Book) (user_list : List UserInput)
    (seq : List (Nat × Nat)) (uid bid : Nat) (u : User)
    (hnd : (user_list.map UserInput.user_id).Nodup)
    (hu : dlookup (apply_purchases (load_data book_list user_list) seq).users uid = some u)
    (hb : (dlookup (apply_purchases (load_data book_list user_list) seq).books bid).isSome)
    (hmem : bid ∈ u.purchased_books) :
    (purchase_book (apply_purchases (load_data book_list user_list) seq) uid bid).1 = true ∧
    (purchase_book (apply_purchases (load_data book_list user_list) seq) uid bid).2.users
      = (apply_purchases (load_data book_list user_list) seq).users ∧
    (purchase_book (apply_purchases (load_data book_list user_list) seq)
        uid bid).2.book_subscribers
      = (apply_purchases (load_data book_list user_list) seq).book_subscribers :=
  repeat_purchase_noop _ uid bid u (reachable_inv book_list user_list seq hnd) hu hb hmem

/-- Witness for C10 at a concrete reachable state: re-purchasing item 1,
already owned by user 1, succeeds and moves neither the user map nor the
index. -/
theorem claim_C10_witness :
    (purchase_book (apply_purchases (load_data [mkBook 1] [⟨1, "A", [1]⟩]) []) 1 1).1 = true ∧
    (purchase_book (apply_purchases (load_data [mkBook 1] [⟨1, "A", [1]⟩]) []) 1 1).2.users
      = (apply_purchases (load_data [mkBook 1] [⟨1, "A", [1]⟩]) []).users ∧
    (purchase_book (apply_purchases (load_data [mkBook 1] [⟨1, "A", [1]⟩]) [])
        1 1).2.book_subscribers
      = (apply_purchases (load_data [mkBook 1] [⟨1, "A", [1]⟩]) []).book_subscribers :=
  claim_C10 [mkBook 1] [⟨1, "A", [1]⟩] [] 1 1 ⟨1, "A", [1]⟩
    (by decide) (by decide) (by decide) (by decide)

end RecEngine
